import Mathlib

/-!
Shallow embedding of the `tsm` state-machine library (src/components.ts,
src/interpret.ts, src/validation.ts, src/utility.ts) and proofs about it.

Modelling conventions:
* JS `undefined` flowing through the context pipeline is modelled by `Option C`:
  the machine's `context?.value` access yields `none` when the machine has no
  `Context`, and reducer/guard/action callbacks operate on `Option C`, exactly
  as the runtime passes a possibly-`undefined` value despite the TS cast
  (`service.machine.context?.value as C`).
* the JS `Map` in `Machine.states` is modelled as an association list with
  JS-`Map.set` semantics (`mapSet`: overwrite in place if the key exists,
  append otherwise) and `Map.get` as `mapGet`.
* side effects are made observable as data: each subscriber invocation is one
  entry of the `notified` list of a `SendOut`; starting an Invoke's async
  function is recorded as an `InvokeStart` carrying the context value passed
  and the event the promise resolves with (`fn : Option C → E` stands for the
  promise-returning function, the event being what `.then(service.send)`
  eventually delivers back to `send`).
* the unbounded recursion of `enter` through chained Immediates is given a
  fuel parameter; running out of fuel is the distinguished error
  `EnterErr.fuelOut`, separate from the source's invariant failure
  `EnterErr.nonexistent` ("transition led to non existent state").
-/

namespace TSM

/-- Guard (src/types.ts): predicate over the context. -/
structure Guard (C : Type) where
  fn : Option C → Bool

/-- The Reducer/Action family (the source collects both under `reducerProto`,
with `actionProto = Object.create(reducerProto)`; `isType(actionProto, _)`
distinguishes them inside the fold of `enter`). -/
inductive RA (E C : Type) where
  | reducer (fn : Option C → E → Option C)
  | action (fn : Option C → E → Unit)

/-- Transition (src/types.ts): event name, target state name, ordered
Reducer/Action family, ordered guard family. -/
structure Transition (S E C : Type) where
  name : String
  state : S
  reducers : List (RA E C)
  guards : List (Guard C)

/-- Immediate (src/types.ts): like a transition but with no event name. -/
structure Immediate (S E C : Type) where
  state : S
  reducers : List (RA E C)
  guards : List (Guard C)

/-- State (src/types.ts). -/
structure StateDef (S E C : Type) where
  name : S
  transitions : List (Transition S E C)
  immediates : List (Immediate S E C)

/-- Invoke (src/types.ts): the field `fn` models the promise-returning
`Invokable`; the `E` it returns is the event the promise resolves with. -/
structure Invoke (S E C : Type) where
  name : S
  transitions : List (Transition S E C)
  fn : Option C → E

/-- A value of the `states` map: `State | Invoke`. -/
inductive Node (S E C : Type) where
  | state (s : StateDef S E C)
  | invoke (i : Invoke S E C)

/-- Context (src/types.ts): wraps one value. The wrapped value is
`Option C` because `enter` rebuilds a `Context` around a possibly
`undefined` running value. -/
structure Ctx (C : Type) where
  value : Option C
deriving DecidableEq

/-- Name of a node (`arg.name` in `machine`'s reduce). -/
def Node.name {S E C : Type} : Node S E C → S
  | .state s => s.name
  | .invoke i => i.name

/-- Transitions of a node (both variants carry `transitions`). -/
def Node.transitions {S E C : Type} : Node S E C → List (Transition S E C)
  | .state s => s.transitions
  | .invoke i => i.transitions

/-- Immediates of a node (an Invoke has none by construction). -/
def Node.immediates {S E C : Type} : Node S E C → List (Immediate S E C)
  | .state s => s.immediates
  | .invoke _ => []

/-- Machine (src/types.ts): state mapping, current state, optional context. -/
structure Machine (S E C : Type) where
  states : List (S × Node S E C)
  state : Node S E C
  context : Option (Ctx C)

/-- Lookup of the JS `Map.get` method. -/
def mapGet {S V : Type} [DecidableEq S] (m : List (S × V)) (k : S) : Option V :=
  (m.find? (fun p => p.1 = k)).map (fun p => p.2)

/-- JS `Map.set`: overwrite in place when the key is present, append
otherwise. -/
def mapSet {S V : Type} [DecidableEq S] (m : List (S × V)) (k : S) (v : V) :
    List (S × V) :=
  if m.any (fun p => p.1 = k) then
    m.map (fun p => if p.1 = k then (k, v) else p)
  else
    m ++ [(k, v)]

/-- Value of `this.machine.context?.value`: `none` both when the machine has no
`Context` and when the wrapped value is `undefined`. -/
def ctxValue {S E C : Type} (m : Machine S E C) : Option C :=
  match m.context with
  | none => none
  | some c => c.value

/-- The `Service` cell (src/interpret.ts): the held machine snapshot and the
subscriber list, the latter modelled by its length (subscriber callbacks are
opaque; each invocation is recorded in a `SendOut.notified` entry). -/
structure Service (S E C : Type) where
  machine : Machine S E C
  subscribers : Nat

/-- One started Invoke call: which Invoke, the context value its `fn`
received, and the event its promise resolves with (delivered to `send` by
`.then(service.send)`). -/
structure InvokeStart (S E C : Type) where
  name : S
  passed : Option C
  result : E

/-- Errors `enter` can raise. `nonexistent` is the source's
`invariant(nextState, 'transition led to non existent state')`;
`fuelOut` is the fuel artifact standing for unbounded Immediate recursion. -/
inductive EnterErr where
  | nonexistent
  | fuelOut
deriving DecidableEq

/-- The message of the source's invariant failure. -/
def EnterErr.message : EnterErr → String
  | .nonexistent => "transition led to non existent state"
  | .fuelOut => "maximum immediate chain depth exceeded"

/-- The common shape `Transition | Immediate` that `enter` consumes. -/
structure Step (S E C : Type) where
  state : S
  reducers : List (RA E C)
  guards : List (Guard C)

/-- Forget a transition's event name. -/
def Transition.toStep {S E C : Type} (t : Transition S E C) : Step S E C :=
  ⟨t.state, t.reducers, t.guards⟩

/-- Forget nothing: an immediate already has the `enter` shape. -/
def Immediate.toStep {S E C : Type} (i : Immediate S E C) : Step S E C :=
  ⟨i.state, i.reducers, i.guards⟩

/-- The fold of `enter` over the Reducer/Action family
(`transition.reducers.reduce(...)`, src/interpret.ts lines 68-74): an action
is invoked and the running value kept, a reducer's return value replaces the
running value. -/
def applyReducers {E C : Type} (rs : List (RA E C)) (ctx : Option C) (e : E) :
    Option C :=
  rs.foldl
    (fun c r =>
      match r with
      | .action _ => c
      | .reducer f => f c e)
    ctx

/-- Function `enter` (src/interpret.ts lines 63-95), with fuel for the Immediate
recursion. Returns the next machine snapshot together with the Invoke calls
started along the way. Note the recursive call passes `svc` unchanged, so a
chained immediate's fold restarts from `svc.machine.context?.value`, exactly
as the source does. -/
def enter {S E C : Type} [DecidableEq S] :
    Nat → Service S E C → E → Step S E C →
      Except EnterErr (Machine S E C × List (InvokeStart S E C))
  | 0, _, _, _ => .error .fuelOut
  | fuel + 1, svc, event, t =>
    let nextContext := applyReducers t.reducers (ctxValue svc.machine) event
    match mapGet svc.machine.states t.state with
    | none => .error .nonexistent
    | some (Node.invoke inv) =>
        .ok
          ({ states := svc.machine.states
             state := Node.invoke inv
             context := some ⟨nextContext⟩ },
           [⟨inv.name, nextContext, inv.fn nextContext⟩])
    | some (Node.state st) =>
        match st.immediates.find?
            (fun i => i.guards.all (fun g => g.fn nextContext)) with
        | some i => enter fuel svc event i.toStep
        | none =>
            .ok
              ({ states := svc.machine.states
                 state := Node.state st
                 context := some ⟨nextContext⟩ },
               [])

/-- The predicate of `send`'s `find` (src/interpret.ts lines 27-31):
name matches the event's discriminant and every guard passes on the current
context. `ety` extracts the event's `type` field. -/
def isMatch {S E C : Type} (ety : E → String) (ctx : Option C) (e : E)
    (t : Transition S E C) : Bool :=
  t.name = ety e && t.guards.all (fun g => g.fn ctx)

/-- The transition `send` fires: the first declaration-order match. -/
def selectTransition {S E C : Type} (ety : E → String) (m : Machine S E C)
    (e : E) : Option (Transition S E C) :=
  m.state.transitions.find? (isMatch ety (ctxValue m) e)

/-- The observable outcome of a successful `send`: the service afterwards,
one `notified` entry per subscriber call (each receives the new snapshot and
the event), and the Invoke calls started. -/
structure SendOut (S E C : Type) where
  service : Service S E C
  notified : List (Machine S E C × E)
  invoked : List (InvokeStart S E C)

/-- Function `send` (src/interpret.ts lines 26-36): find the first matching guarded
transition; if none, do nothing; otherwise swap the snapshot for `enter`'s
result and notify every subscriber with the new snapshot and the event. An
`enter` error propagates with no swap and no notification. -/
def send {S E C : Type} [DecidableEq S] (fuel : Nat) (ety : E → String)
    (svc : Service S E C) (e : E) : Except EnterErr (SendOut S E C) :=
  match selectTransition ety svc.machine e with
  | none => .ok ⟨svc, [], []⟩
  | some t =>
    match enter fuel svc e t.toStep with
    | .error err => .error err
    | .ok (m, invs) =>
        .ok ⟨⟨m, svc.subscribers⟩, List.replicate svc.subscribers (m, e), invs⟩

/-- The service the caller of `send` holds afterwards: on an exception the
assignment `this.machine = enter(...)` never ran, so the old service stands. -/
def afterSend {S E C : Type} [DecidableEq S] (fuel : Nat) (ety : E → String)
    (svc : Service S E C) (e : E) : Service S E C :=
  match send fuel ety svc e with
  | .ok out => out.service
  | .error _ => svc

/-- Function `matches` (src/interpret.ts lines 37-42), single-name case. -/
def matchesName {S E C : Type} [DecidableEq S] (svc : Service S E C) (s : S) :
    Bool :=
  svc.machine.state.name = s

/-- An argument to `machine(...)`: a `State`/`Invoke` (both satisfy the
`stateProto` check since `invokeProto = Object.create(stateProto)`) or a
`Context`. -/
inductive MachineArg (S E C : Type) where
  | node (n : Node S E C)
  | ctxArg (c : Ctx C)

/-- The `isTypeP(stateProto)` projection used by `machine`'s `find`. -/
def argNode {S E C : Type} : MachineArg S E C → Option (Node S E C)
  | .node n => some n
  | .ctxArg _ => none

/-- The `isTypeP(contextProto)` projection. -/
def argCtx {S E C : Type} : MachineArg S E C → Option (Ctx C)
  | .node _ => none
  | .ctxArg c => some c

/-- The `args.reduce((s, arg) => ... s.set(arg.name, arg) ...)` building the
state mapping (src/components.ts lines 39-44). -/
def buildStates {S E C : Type} [DecidableEq S] (args : List (MachineArg S E C)) :
    List (S × Node S E C) :=
  args.foldl
    (fun m a =>
      match a with
      | .node n => mapSet m n.name n
      | .ctxArg _ => m)
    []

/-- Builder `machine(...)` (src/components.ts lines 35-53): the first `State`/`Invoke`
argument is required (`invariant(state, 'machine needs at least one state')`)
and becomes the initial current state; the mapping is built by `Map.set` over
all node arguments; the first `Context` argument (if any) is kept. -/
def machineBuild {S E C : Type} [DecidableEq S]
    (args : List (MachineArg S E C)) : Except String (Machine S E C) :=
  match args.findSome? argNode with
  | none => .error "machine needs at least one state"
  | some st =>
      .ok { states := buildStates args, state := st
            context := args.findSome? argCtx }

/-- Loop computing `needsContext` of `contextIsValid` (src/validation.ts lines 15-20):
only `state.transitions` is inspected, never `immediates`. -/
def needsContext {S E C : Type} (m : Machine S E C) : Bool :=
  m.states.any (fun p => p.2.transitions.any (fun t => !t.reducers.isEmpty))

/-- Function `contextIsValid` (src/validation.ts lines 11-22). -/
def contextIsValid {S E C : Type} (m : Machine S E C) : Bool :=
  !(needsContext m && m.context.isNone)

/-- What the spec claims `contextIsValid` inspects: a Reducer/Action member on
any transition *or immediate* anywhere in the machine. Stated from the spec's
words, to be compared with `contextIsValid` from the source. -/
def hasRAAnywhere {S E C : Type} (m : Machine S E C) : Bool :=
  m.states.any
    (fun p =>
      p.2.transitions.any (fun t => !t.reducers.isEmpty) ||
        (p.2.immediates.any (fun i => !i.reducers.isEmpty)))

/-- Every state name a node's transitions and immediates point at. -/
def targetsOf {S E C : Type} (n : Node S E C) : List S :=
  n.transitions.map (fun t => t.state) ++ n.immediates.map (fun i => i.state)

/-- A machine whose every transition and immediate target resolves in the
state mapping — what `machine(...)`-built configurations satisfy when all
referenced names were supplied. -/
def closedTargets {S E C : Type} [DecidableEq S] (m : Machine S E C) : Prop :=
  ∀ p ∈ m.states, ∀ s ∈ targetsOf p.2, (mapGet m.states s).isSome = true

/-! Concrete machines used to instantiate the theorems below. Events are
plain strings (the discriminant extractor is `id`), state names are `Nat`,
the context type is `Nat`. -/

/-- A transition whose reducer increments the context, leading into a state
with an unconditional immediate. -/
def c1inc : Transition Nat String Nat :=
  { name := "go", state := 2
    reducers := [RA.reducer (fun c _ => c.map (fun n => n + 1))], guards := [] }

def c1s1 : StateDef Nat String Nat := ⟨1, [c1inc], []⟩

/-- State 2 chains immediately (no guards, no reducers) to state 3. -/
def c1s2 : StateDef Nat String Nat := ⟨2, [], [⟨3, [], []⟩]⟩

def c1s3 : StateDef Nat String Nat := ⟨3, [], []⟩

def c1svc : Service Nat String Nat :=
  ⟨{ states := [(1, Node.state c1s1), (2, Node.state c1s2), (3, Node.state c1s3)]
     state := Node.state c1s1, context := some ⟨some 0⟩ }, 0⟩

/-- A guarded transition for event `inc` whose guard fails on context `0`. -/
def tGuarded : Transition Nat String Nat :=
  { name := "inc", state := 2, reducers := []
    guards := [⟨fun c => c == some 5⟩] }

/-- A later unguarded transition for the same event `inc`. -/
def tOpen : Transition Nat String Nat :=
  { name := "inc", state := 1
    reducers := [RA.reducer (fun c _ => c.map (fun n => n + 1))], guards := [] }

def c2state : StateDef Nat String Nat := ⟨1, [tGuarded, tOpen], []⟩

def c2m : Machine Nat String Nat :=
  { states := [(1, Node.state c2state), (2, Node.state ⟨2, [], []⟩)]
    state := Node.state c2state, context := some ⟨some 0⟩ }

def c3state : StateDef Nat String Nat := ⟨1, [⟨"inc", 1, [], []⟩], []⟩

def c3svc : Service Nat String Nat :=
  ⟨{ states := [(1, Node.state c3state)], state := Node.state c3state
     context := some ⟨some 0⟩ }, 2⟩

/-- A state whose only transition targets the absent name `9`. -/
def c4state : StateDef Nat String Nat := ⟨1, [⟨"go", 9, [], []⟩], []⟩

def c4svc : Service Nat String Nat :=
  ⟨{ states := [(1, Node.state c4state)], state := Node.state c4state
     context := none }, 1⟩

def c6n1 : Node Nat String Nat := Node.state ⟨1, [], []⟩

/-- A second node with the same name `1`, to exercise duplicate overwrite. -/
def c6n2 : Node Nat String Nat := Node.state ⟨1, [⟨"x", 1, [], []⟩], []⟩

def c6args : List (MachineArg Nat String Nat) :=
  [MachineArg.ctxArg ⟨some 0⟩, MachineArg.node c6n1, MachineArg.node c6n2]

def c6m : Machine Nat String Nat :=
  { states := [(1, c6n2)], state := c6n1, context := some ⟨some 0⟩ }

def c7red : RA String Nat := RA.reducer (fun c _ => c.map (fun n => n + 1))

def c7inv : Invoke Nat String Nat := ⟨2, [], fun _ => "done"⟩

def c7s1 : StateDef Nat String Nat := ⟨1, [⟨"go", 2, [c7red], []⟩], []⟩

def c7svc : Service Nat String Nat :=
  ⟨{ states := [(1, Node.state c7s1), (2, Node.invoke c7inv)]
     state := Node.state c7s1, context := some ⟨some 3⟩ }, 0⟩

def c7t : Step Nat String Nat := ⟨2, [c7red], []⟩

/-- An immediate carrying a reducer, in a machine with no context and no
transition reducers anywhere. -/
def c9imm : Immediate Nat String Nat := ⟨1, [RA.reducer (fun c _ => c)], []⟩

def c9m : Machine Nat String Nat :=
  { states := [(1, Node.state ⟨1, [], [c9imm]⟩)]
    state := Node.state ⟨1, [], [c9imm]⟩, context := none }

def c10s1 : StateDef Nat String Nat := ⟨1, [⟨"go", 2, [], []⟩], []⟩

def c10s2 : StateDef Nat String Nat := ⟨2, [], []⟩

/-- A context-free service: the machine was built without a `Context`. -/
def c10svc : Service Nat String Nat :=
  ⟨{ states := [(1, Node.state c10s1), (2, Node.state c10s2)]
     state := Node.state c10s1, context := none }, 0⟩

/-- The snapshot `enter` returns for `c10svc` on `"go"`: a `Context` object
appears, wrapping the absent value. -/
def c10result : Machine Nat String Nat :=
  { states := c10svc.machine.states, state := Node.state c10s2
    context := some ⟨none⟩ }

/-! Helper lemmas. -/

/-- Rewriting entries keyed `k` does not disturb lookups of other keys. -/
theorem mapGet_map_ne {S V : Type} [DecidableEq S] (k k' : S) (v : V)
    (h : k' ≠ k) (m : List (S × V)) :
    mapGet (m.map (fun p => if p.1 = k then (k, v) else p)) k' = mapGet m k' := by
  induction m with
  | nil => rfl
  | cons q t ih =>
    have hk : ¬((k : S) = k') := fun hh => h hh.symm
    by_cases hq : q.1 = k
    · have hq' : ¬(q.1 = k') := by rw [hq]; exact hk
      simp only [mapGet, List.map_cons, if_pos hq]
      rw [List.find?_cons_of_neg _ (by simpa using hk),
        List.find?_cons_of_neg _ (by simpa using hq')]
      exact ih
    · simp only [mapGet, List.map_cons, if_neg hq]
      by_cases hq' : q.1 = k'
      · rw [List.find?_cons_of_pos _ (by simpa using hq'),
          List.find?_cons_of_pos _ (by simpa using hq')]
      · rw [List.find?_cons_of_neg _ (by simpa using hq'),
          List.find?_cons_of_neg _ (by simpa using hq')]
        exact ih

/-- Rewriting every entry keyed `k` to `(k, v)` makes lookup of `k` yield `v`,
provided some entry with key `k` exists. -/
theorem mapGet_map_self {S V : Type} [DecidableEq S] (k : S) (v : V)
    (m : List (S × V)) (hex : ∃ q ∈ m, q.1 = k) :
    mapGet (m.map (fun p => if p.1 = k then (k, v) else p)) k = some v := by
  induction m with
  | nil => obtain ⟨q, hq, _⟩ := hex; cases hq
  | cons a t ih =>
    by_cases ha : a.1 = k
    · unfold mapGet
      rw [List.map_cons, if_pos ha]
      rw [List.find?_cons_of_pos _ (by simp)]
      rfl
    · unfold mapGet
      rw [List.map_cons, if_neg ha]
      rw [List.find?_cons_of_neg _ (by simpa using ha)]
      apply ih
      obtain ⟨q, hq, hqk⟩ := hex
      rcases List.mem_cons.mp hq with h1 | h2
      · exact absurd (h1 ▸ hqk) ha
      · exact ⟨q, h2, hqk⟩

/-- Lookup after a JS `Map.set`: the set key sees the new value, every other
key is untouched. -/
theorem mapGet_mapSet {S V : Type} [DecidableEq S] (m : List (S × V))
    (k k' : S) (v : V) :
    mapGet (mapSet m k v) k' = if k' = k then some v else mapGet m k' := by
  unfold mapSet
  by_cases hany : (m.any fun p => p.1 = k) = true
  · rw [if_pos hany]
    by_cases hk : k' = k
    · subst hk
      obtain ⟨q, hqmem, hqk⟩ := List.any_eq_true.mp hany
      rw [if_pos rfl]
      exact mapGet_map_self k' v m ⟨q, hqmem, of_decide_eq_true hqk⟩
    · rw [if_neg hk]
      exact mapGet_map_ne k k' v hk m
  · rw [if_neg hany]
    have hm : m.find? (fun p => p.1 = k) = none := by
      apply List.find?_eq_none.mpr
      intro p hp hpk
      exact hany (List.any_eq_true.mpr ⟨p, hp, hpk⟩)
    by_cases hk : k' = k
    · subst hk
      unfold mapGet
      rw [if_pos rfl, List.find?_append, hm, Option.none_or,
        List.find?_cons_of_pos _ (by simp)]
      rfl
    · have hone : List.find? (fun p => p.1 = k') [(k, v)] = none := by
        rw [List.find?_cons_of_neg _ (by simpa using fun hh => hk hh.symm)]
        rfl
      unfold mapGet
      rw [if_neg hk, List.find?_append, hone, Option.or_none]

/-- A successful `mapGet` exhibits its entry in the association list. -/
theorem mem_of_mapGet {S V : Type} [DecidableEq S] {m : List (S × V)} {k : S}
    {v : V} (h : mapGet m k = some v) : (k, v) ∈ m := by
  unfold mapGet at h
  cases hf : m.find? (fun p => p.1 = k) with
  | none => rw [hf] at h; cases h
  | some q =>
    rw [hf] at h
    have hqv : q.2 = v := by simpa using h
    have hqk' := List.find?_some hf
    have hqk : q.1 = k := of_decide_eq_true hqk'
    have hqm := List.mem_of_find?_eq_some hf
    have hq : q = (k, v) := by
      cases q
      simp_all
    rwa [hq] at hqm

/-- Every snapshot `enter` returns reuses the service's state mapping:
the final `immutable(...)` passes `service.machine.states` through, and the
Immediate recursion passes `service` unchanged. -/
theorem enter_preserves_states {S E C : Type} [DecidableEq S]
    (svc : Service S E C) (e : E) :
    ∀ (fuel : Nat) (t : Step S E C) (m : Machine S E C)
      (invs : List (InvokeStart S E C)),
      enter fuel svc e t = .ok (m, invs) → m.states = svc.machine.states := by
  intro fuel
  induction fuel with
  | zero =>
    intro t m invs h
    simp [enter] at h
  | succ n ih =>
    intro t m invs h
    rw [enter] at h
    split at h
    · cases h
    · cases h
      rfl
    · split at h
      · exact ih _ m invs h
      · cases h
        rfl

/-- When every transition/immediate target in the machine resolves, `enter`
never raises the missing-target invariant (it can only succeed or exhaust
its fuel on an Immediate cycle). -/
theorem enter_no_missing {S E C : Type} [DecidableEq S] (svc : Service S E C)
    (e : E) (hcl : closedTargets svc.machine) :
    ∀ (fuel : Nat) (t : Step S E C),
      (mapGet svc.machine.states t.state).isSome = true →
      enter fuel svc e t ≠ .error .nonexistent := by
  intro fuel
  induction fuel with
  | zero =>
    intro t ht h
    simp [enter] at h
  | succ n ih =>
    intro t ht
    obtain ⟨nd, hnd⟩ := Option.isSome_iff_exists.mp ht
    rw [enter]
    cases nd with
    | invoke inv => simp [hnd]
    | state st =>
      simp only [hnd]
      cases him : st.immediates.find?
          (fun i => i.guards.all
            (fun g => g.fn (applyReducers t.reducers (ctxValue svc.machine) e))) with
      | none => simp
      | some i =>
        simp only
        apply ih
        have hpair : ((t.state, Node.state st) : S × Node S E C) ∈
            svc.machine.states := mem_of_mapGet hnd
        have himem : i ∈ st.immediates := List.mem_of_find?_eq_some him
        have htarget : i.state ∈ targetsOf (Node.state st) := by
          unfold targetsOf
          apply List.mem_append_right
          exact List.mem_map_of_mem (fun j => j.state) himem
        exact hcl _ hpair i.state htarget

/-- Lookup into the mapping built by `machine`'s reduce: the last node
argument with the looked-up name wins (JS `Map.set` overwrites), else the
accumulator's entry stands. -/
theorem buildStates_get {S E C : Type} [DecidableEq S] (k : S) :
    ∀ (args : List (MachineArg S E C)) (acc : List (S × Node S E C)),
      mapGet
        (args.foldl
          (fun m a =>
            match a with
            | .node n => mapSet m n.name n
            | .ctxArg _ => m)
          acc) k =
      (args.filterMap argNode).foldl
        (fun r n => if n.name = k then some n else r) (mapGet acc k) := by
  intro args
  induction args with
  | nil => intro acc; rfl
  | cons a rest ih =>
    intro acc
    cases a with
    | node n =>
      simp only [List.foldl_cons, List.filterMap_cons, argNode]
      rw [ih (mapSet acc n.name n), mapGet_mapSet]
      by_cases h : n.name = k
      · rw [if_pos h, if_pos h.symm]
      · rw [if_neg h, if_neg (fun hh => h hh.symm)]
    | ctxArg c =>
      simp only [List.foldl_cons, List.filterMap_cons, argNode]
      exact ih acc

/-! Claim theorems. -/

/-- C5: the Reducer/Action family is folded in declaration order (the head is
applied before the rest); an Action leaves the running context value
unchanged; a Reducer replaces the running value with its return value. -/
theorem reducer_action_fold_spec {E C : Type} (ctx : Option C) (e : E)
    (g : Option C → E → Unit) (f : Option C → E → Option C)
    (rs : List (RA E C)) :
    applyReducers ([] : List (RA E C)) ctx e = ctx ∧
    applyReducers (RA.action g :: rs) ctx e = applyReducers rs ctx e ∧
    applyReducers (RA.reducer f :: rs) ctx e = applyReducers rs (f ctx e) e :=
  ⟨rfl, rfl, rfl⟩

/-- C2: the transition `send` fires is the first, in declaration order, whose
name equals the event's discriminant and whose guards all pass on the current
context (part one: whatever `selectTransition` returns is such a first match;
part two: a match preceded only by failing candidates is returned, so a later
same-named transition fires when the earlier one's guards fail). -/
theorem send_first_match {S E C : Type} [DecidableEq S] (ety : E → String)
    (m : Machine S E C) (e : E) :
    (∀ t, selectTransition ety m e = some t →
      isMatch ety (ctxValue m) e t = true ∧
      ∃ l1 l2, m.state.transitions = l1 ++ t :: l2 ∧
        ∀ u ∈ l1, isMatch ety (ctxValue m) e u = false) ∧
    (∀ (l1 l2 : List (Transition S E C)) (t : Transition S E C),
      m.state.transitions = l1 ++ t :: l2 →
      (∀ u ∈ l1, isMatch ety (ctxValue m) e u = false) →
      isMatch ety (ctxValue m) e t = true →
      selectTransition ety m e = some t) := by
  constructor
  · intro t ht
    simp only [selectTransition] at ht
    obtain ⟨hp, l1, l2, heq, hall⟩ := List.find?_eq_some.mp ht
    refine ⟨hp, l1, l2, heq, ?_⟩
    intro u hu
    simpa using hall u hu
  · intro l1 l2 t heq hfail hmatch
    simp only [selectTransition, heq]
    rw [List.find?_append]
    have h1 : l1.find? (isMatch ety (ctxValue m) e) = none :=
      List.find?_eq_none.mpr (fun u hu => by simp [hfail u hu])
    rw [h1, Option.none_or]
    exact List.find?_cons_of_pos _ hmatch

/-- Witness for C2 on a concrete machine: two transitions named `inc`, the
first guarded by `context = 5` (failing on context `0`), the second
unguarded; the second fires. -/
theorem send_first_match_witness :
    selectTransition id c2m "inc" = some tOpen ∧
    (isMatch id (ctxValue c2m) "inc" tOpen = true ∧
      ∃ l1 l2, c2m.state.transitions = l1 ++ tOpen :: l2 ∧
        ∀ u ∈ l1, isMatch id (ctxValue c2m) "inc" u = false) :=
  ⟨rfl, (send_first_match id c2m "inc").1 tOpen rfl⟩

/-- C3: when no transition of the current state matches the event (by name
and guards), `send` returns successfully with the service unchanged, no
subscriber notification and no Invoke started, and the held snapshot after
the call is the old one. -/
theorem send_unmatched_noop {S E C : Type} [DecidableEq S] (fuel : Nat)
    (ety : E → String) (svc : Service S E C) (e : E)
    (h : ∀ t ∈ svc.machine.state.transitions,
      isMatch ety (ctxValue svc.machine) e t = false) :
    send fuel ety svc e = .ok ⟨svc, [], []⟩ ∧
    afterSend fuel ety svc e = svc := by
  have hsel : selectTransition ety svc.machine e = none :=
    List.find?_eq_none.mpr (fun t ht => by simp [h t ht])
  constructor
  · simp [send, hsel]
  · simp [afterSend, send, hsel]

/-- Witness for C3: the state only handles `inc`; sending `dec` is a no-op
even with two subscribers present. -/
theorem send_unmatched_noop_witness :
    (∀ t ∈ c3svc.machine.state.transitions,
      isMatch id (ctxValue c3svc.machine) "dec" t = false) ∧
    (send 5 id c3svc "dec" = .ok ⟨c3svc, [], []⟩ ∧
      afterSend 5 id c3svc "dec" = c3svc) :=
  ⟨by decide, send_unmatched_noop 5 id c3svc "dec" (by decide)⟩

/-- C4: a missing transition target makes `enter` fail with the
missing-target invariant (whose message is the source's "transition led to
non existent state"); the failure propagates through `send` with no snapshot
swap and no subscriber notification; and when every target in the machine
resolves, `enter` never raises this invariant. -/
theorem missing_target_fatal {S E C : Type} [DecidableEq S] (fuel : Nat)
    (ety : E → String) (svc : Service S E C) (e : E) (t : Step S E C) :
    (mapGet svc.machine.states t.state = none →
      enter (fuel + 1) svc e t = .error .nonexistent ∧
      EnterErr.message .nonexistent = "transition led to non existent state") ∧
    (∀ (tr : Transition S E C) (err : EnterErr),
      selectTransition ety svc.machine e = some tr →
      enter fuel svc e tr.toStep = .error err →
      send fuel ety svc e = .error err ∧ afterSend fuel ety svc e = svc) ∧
    (closedTargets svc.machine →
      (mapGet svc.machine.states t.state).isSome = true →
      enter fuel svc e t ≠ .error .nonexistent) := by
  refine ⟨?_, ?_, ?_⟩
  · intro h
    exact ⟨by simp [enter, h], rfl⟩
  · intro tr err hsel henter
    constructor
    · simp [send, hsel, henter]
    · simp [afterSend, send, hsel, henter]
  · intro hcl hsome
    exact enter_no_missing svc e hcl fuel t hsome

/-- Witness for C4: the only transition targets the absent name `9`; `enter`
raises, and `send` propagates the error leaving the one-subscriber service
untouched. -/
theorem missing_target_fatal_witness :
    mapGet c4svc.machine.states (9 : Nat) = none ∧
    (enter 1 c4svc "go" ⟨9, [], []⟩ = .error .nonexistent ∧
      EnterErr.message .nonexistent = "transition led to non existent state") ∧
    (send 1 id c4svc "go" = .error .nonexistent ∧
      afterSend 1 id c4svc "go" = c4svc) := by
  refine ⟨rfl, (missing_target_fatal 0 id c4svc "go" ⟨9, [], []⟩).1 rfl, ?_⟩
  exact (missing_target_fatal 1 id c4svc "go" ⟨9, [], []⟩).2.1
    ⟨"go", 9, [], []⟩ .nonexistent rfl rfl

/-- C8: `send` never changes the state mapping or the subscriber count: the
snapshot it installs (when it installs one) shares the old snapshot's
`states`, and old snapshots are plain immutable values (`Object.freeze` in
the source, pure values here), never mutated retroactively. -/
theorem send_shares_states {S E C : Type} [DecidableEq S] (fuel : Nat)
    (ety : E → String) (svc : Service S E C) (e : E) :
    (afterSend fuel ety svc e).machine.states = svc.machine.states ∧
    (afterSend fuel ety svc e).subscribers = svc.subscribers := by
  have hok : ∀ out : SendOut S E C, send fuel ety svc e = .ok out →
      out.service.machine.states = svc.machine.states ∧
      out.service.subscribers = svc.subscribers := by
    intro out h
    unfold send at h
    split at h
    · cases h
      exact ⟨rfl, rfl⟩
    · split at h
      · cases h
      · cases h
        exact ⟨enter_preserves_states svc e fuel _ _ _ (by assumption), rfl⟩
  unfold afterSend
  split
  · rename_i out hout
    exact hok out hout
  · exact ⟨rfl, rfl⟩

/-- C10: every snapshot `enter` returns successfully carries a present
`Context` (the source always rebuilds `immutable(contextProto, ...)`), even
for machines constructed without one — the wrapped value is then the absent
value. -/
theorem enter_context_present {S E C : Type} [DecidableEq S]
    (svc : Service S E C) (e : E) :
    ∀ (fuel : Nat) (t : Step S E C) (m : Machine S E C)
      (invs : List (InvokeStart S E C)),
      enter fuel svc e t = .ok (m, invs) → ∃ v, m.context = some ⟨v⟩ := by
  intro fuel
  induction fuel with
  | zero =>
    intro t m invs h
    simp [enter] at h
  | succ n ih =>
    intro t m invs h
    rw [enter] at h
    split at h
    · cases h
    · cases h
      exact ⟨_, rfl⟩
    · split at h
      · exact ih _ m invs h
      · cases h
        exact ⟨_, rfl⟩

/-- Witness for C10: a context-free machine (`context = none`, so `context()`
reads the absent value) still yields a snapshot with a present `Context`
wrapping the absent value after its first accepted transition. -/
theorem enter_context_present_witness :
    ctxValue c10svc.machine = none ∧
    enter 1 c10svc "go" ⟨2, [], []⟩ = .ok (c10result, []) ∧
    c10result.context = some ⟨none⟩ ∧
    (∃ v, c10result.context = some ⟨v⟩) :=
  ⟨rfl, rfl, rfl,
    enter_context_present c10svc "go" 1 ⟨2, [], []⟩ c10result [] rfl⟩

/-- C6: `machine(...)` fails with "machine needs at least one state" exactly
when no State/Invoke argument is supplied; on success the initial current
state is the first State/Invoke argument, and looking up any name in the
state mapping yields the last node argument with that name (later duplicates
overwrite earlier ones). -/
theorem machine_build_spec {S E C : Type} [DecidableEq S]
    (args : List (MachineArg S E C)) :
    (machineBuild args = .error "machine needs at least one state" ↔
      ∀ a ∈ args, argNode a = none) ∧
    (∀ m : Machine S E C, machineBuild args = .ok m →
      (∃ l1 n l2, args = l1 ++ MachineArg.node n :: l2 ∧
        (∀ a ∈ l1, argNode a = none) ∧ m.state = n) ∧
      ∀ k, mapGet m.states k =
        (args.filterMap argNode).foldl
          (fun r n => if n.name = k then some n else r) none) := by
  constructor
  · cases hf : args.findSome? argNode with
    | none =>
      simp only [machineBuild, hf]
      exact ⟨fun _ => List.findSome?_eq_none_iff.mp hf, fun _ => by trivial⟩
    | some st =>
      simp only [machineBuild, hf]
      constructor
      · intro h
        cases h
      · intro hall
        rw [List.findSome?_eq_none_iff.mpr hall] at hf
        cases hf
  · intro m hm
    cases hf : args.findSome? argNode with
    | none =>
      simp only [machineBuild, hf] at hm
      cases hm
    | some st =>
      simp only [machineBuild, hf] at hm
      cases hm
      constructor
      · obtain ⟨l1, a, l2, heq, ha, hnone⟩ :=
          List.findSome?_eq_some_iff.mp hf
        cases a with
        | ctxArg c => cases ha
        | node n =>
          have hst : st = n := by
            have : some n = some st := ha
            cases this
            rfl
          exact ⟨l1, n, l2, heq, hnone, hst⟩
      · intro k
        exact buildStates_get k args []

/-- Witness for C6: two nodes both named `1` (plus a `Context` argument in
front); the build succeeds, the first node is the initial state, and the
mapping holds the second (overwriting) node under name `1`. -/
theorem machine_build_spec_witness :
    machineBuild c6args = .ok c6m ∧
    mapGet c6m.states 1 = some c6n2 ∧ c6m.state = c6n1 ∧
    ((∃ l1 n l2, c6args = l1 ++ MachineArg.node n :: l2 ∧
        (∀ a ∈ l1, argNode a = none) ∧ c6m.state = n) ∧
      ∀ k, mapGet c6m.states k =
        (c6args.filterMap argNode).foldl
          (fun r n => if n.name = k then some n else r) none) :=
  ⟨rfl, rfl, rfl, (machine_build_spec c6args).2 c6m rfl⟩

/-- C9 (amended): `contextIsValid` is `false` exactly when the machine has no
`Context` and some *transition* (immediates are never inspected) carries a
Reducer/Action family member; it is a pure advisory predicate. -/
theorem context_is_valid_amended {S E C : Type} (m : Machine S E C) :
    (contextIsValid m = false ↔ (m.context = none ∧ needsContext m = true)) ∧
    (needsContext m = true ↔
      ∃ p ∈ m.states, ∃ t ∈ p.2.transitions, t.reducers ≠ []) := by
  constructor
  · simp [contextIsValid, Option.isNone_iff_eq_none, and_comm]
  · simp [needsContext, List.any_eq_true, List.isEmpty_iff]

/-- C9 counterexample: a context-free machine whose only Reducer sits on an
Immediate. The claim predicts `contextIsValid = false`; the source returns
`true` because only transitions are inspected. -/
theorem context_is_valid_claim_false :
    ¬(contextIsValid c9m = false ↔
        (c9m.context = none ∧ hasRAAnywhere c9m = true)) := by
  decide

/-- C1 (code-bug evidence): a transition with a `+1` reducer into a state
with an unconditional immediate. The candidate next context after the
transition's fold is `1`, but the final snapshot wraps `0`: the chained
immediate's fold restarted from the service's original context, discarding
the transition's reducer results, where the spec says the immediate applies
starting from the candidate. -/
theorem immediate_chain_drops_candidate :
    applyReducers c1inc.reducers (ctxValue c1svc.machine) "go" = some 1 ∧
    ∃ out : SendOut Nat String Nat,
      send 3 id c1svc "go" = .ok out ∧
      ctxValue out.service.machine = some 0 ∧
      out.service.machine.state.name = 3 := by
  exact ⟨rfl, ⟨_, rfl, rfl, rfl⟩⟩

/-- C7: when the resolved target is an Invoke, `enter` starts its async
function with the candidate next context (the value after the transition's
reducer fold), records that its resulting event will be fed back to `send`
(the `InvokeStart.result` field), evaluates no Immediate, and returns a
snapshot whose current state is the Invoke and whose `Context` wraps the
candidate. -/
theorem enter_invoke_spec {S E C : Type} [DecidableEq S] (fuel : Nat)
    (svc : Service S E C) (e : E) (t : Step S E C) (inv : Invoke S E C)
    (h : mapGet svc.machine.states t.state = some (Node.invoke inv)) :
    enter (fuel + 1) svc e t =
      .ok
        ({ states := svc.machine.states
           state := Node.invoke inv
           context := some ⟨applyReducers t.reducers (ctxValue svc.machine) e⟩ },
         [⟨inv.name, applyReducers t.reducers (ctxValue svc.machine) e,
            inv.fn (applyReducers t.reducers (ctxValue svc.machine) e)⟩]) := by
  simp [enter, h]

/-- Witness for C7: entering the Invoke named `2` with context `3` and a
`+1` reducer starts `fn` with the candidate `4` and pends its result event
`"done"`; the snapshot's current state is the Invoke and its context is the
candidate. -/
theorem enter_invoke_spec_witness :
    mapGet c7svc.machine.states c7t.state = some (Node.invoke c7inv) ∧
    applyReducers c7t.reducers (ctxValue c7svc.machine) "go" = some 4 ∧
    enter 1 c7svc "go" c7t =
      .ok
        ({ states := c7svc.machine.states
           state := Node.invoke c7inv
           context := some ⟨applyReducers c7t.reducers (ctxValue c7svc.machine) "go"⟩ },
         [⟨c7inv.name, applyReducers c7t.reducers (ctxValue c7svc.machine) "go",
            c7inv.fn (applyReducers c7t.reducers (ctxValue c7svc.machine) "go")⟩]) :=
  ⟨rfl, rfl, enter_invoke_spec 0 c7svc "go" c7t c7inv rfl⟩

end TSM
